import Mathlib

/-!
Shallow embedding of `src/ivision/ivision.py`, a CLI OCR wrapper around the
Apple Vision framework.  Coordinates and confidences are modelled as exact
rationals; recognized strings as lists of characters.  The external framework
response is modelled as a list of candidates (one per recognition result,
matching `result.topCandidates_(1)[0]`), each carrying its string, its
confidence and a function giving the normalized bounding box reported for a
character range of the string.
-/

namespace IVision

/-- A CGRect: origin `(x, y)` and size `(w, h)`. -/
structure CGRect where
  x : ℚ
  y : ℚ
  w : ℚ
  h : ℚ
deriving Repr, DecidableEq

/-- One framework recognition result, reduced to its top candidate
(`result.topCandidates_(1)[0]`): the recognized string, the candidate
confidence, and the normalized bounding box the framework reports for a
character range `(location, length)` of the string
(`cand.boundingBoxForRange_error_`). -/
structure Candidate where
  string : List Char
  confidence : ℚ
  boxForRange : Nat → Nat → CGRect

/-- `Vision.VNImageRectForNormalizedRect`: scales a normalized rectangle to
pixel space by the image width and height. -/
def VNImageRectForNormalizedRect (r : CGRect) (width height : ℚ) : CGRect :=
  ⟨r.x * width, r.y * height, r.w * width, r.h * height⟩

/-- A record appended by `output_handler`:
`(x, height - y - h, w, h, confidence, string)`, later given the column
names `left, top, width, height, confidence, text`. -/
structure OcrRecord where
  left : ℚ
  top : ℚ
  width : ℚ
  height : ℚ
  confidence : ℚ
  text : List Char
deriving Repr, DecidableEq

/-- Builds the record appended for one normalized box: the box is scaled to
pixel space and the vertical coordinate is flipped from the framework's
bottom-left origin to a top-left origin (`height - y - h`). -/
def mkRecord (width height : ℚ) (norm : CGRect) (confidence : ℚ)
    (text : List Char) : OcrRecord :=
  let box := VNImageRectForNormalizedRect norm width height
  ⟨box.x, height - box.y - box.h, box.w, box.h, confidence, text⟩

/-- Whitespace for the purposes of the regex `\S+` (ASCII whitespace). -/
def isSpace (c : Char) : Bool :=
  c = ' ' || c = '\t' || c = '\n' || c = '\x0d' || c = '\x0b' || c = '\x0c'

/-- `re.finditer(r"(\S+)", string)`: the maximal runs of non-whitespace
characters, in left-to-right order, each with its span as
`(match.start, length, match.group)` where `length = end - start`. -/
def tokenize : List Char → Nat → List (Nat × Nat × List Char)
  | [], _ => []
  | c :: cs, i =>
    if isSpace c then
      tokenize cs (i + 1)
    else
      let tok := c :: cs.takeWhile (fun d => !isSpace d)
      (i, tok.length, tok) :: tokenize (cs.dropWhile (fun d => !isSpace d)) (i + tok.length)
termination_by s _ => s.length
decreasing_by
  · simp only [List.length_cons]
    omega
  · simp only [List.length_cons]
    exact Nat.lt_succ_of_le (List.dropWhile_sublist _).length_le

/-- The line-level record `output_handler` appends for a candidate: the
normalized box for the whole string (range `(0, len(string))`), scaled and
flipped, with the candidate's confidence and full string. -/
def lineRecord (width height : ℚ) (c : Candidate) : OcrRecord :=
  mkRecord width height (c.boxForRange 0 c.string.length) c.confidence c.string

/-- The word-level records `output_handler` appends for a candidate: one per
`\S+` match, using the normalized box for that match's span, with the
candidate's confidence and the matched token. -/
def wordRecords (width height : ℚ) (c : Candidate) : List OcrRecord :=
  (tokenize c.string 0).map fun t =>
    mkRecord width height (c.boxForRange t.1 t.2.1) c.confidence t.2.2

/-- One iteration of the `for result in req.results()` loop: appends the line
record to `ocr_data_text` and the word records to `ocr_data_words`. -/
def handlerStep (width height : ℚ) (acc : List OcrRecord × List OcrRecord)
    (c : Candidate) : List OcrRecord × List OcrRecord :=
  (acc.1 ++ [lineRecord width height c], acc.2 ++ wordRecords width height c)

/-- `output_handler`: the pair `(ocr_data_text, ocr_data_words)` after the
loop over all results. -/
def outputHandler (width height : ℚ) (results : List Candidate) :
    List OcrRecord × List OcrRecord :=
  results.foldl (handlerStep width height) ([], [])

/-- Round-half-to-even to an integer (the rounding used by
`numpy`/`pandas.Series.round`). -/
def roundHalfEven (q : ℚ) : ℤ :=
  let f := ⌊q⌋
  let frac := q - f
  if frac < 1 / 2 then f
  else if 1 / 2 < frac then f + 1
  else if f % 2 = 0 then f else f + 1

/-- `Series.round(2)`: rounding to two decimal places. -/
def round2 (q : ℚ) : ℚ :=
  (roundHalfEven (q * 100) : ℚ) / 100

/-- `if ocr_data: data = DataFrame(...); data["confidence"].round(2)`:
an empty record list leaves the table as `None`; a non-empty one becomes a
table with the confidence column rounded to two decimals. -/
def finalizeTable (recs : List OcrRecord) : Option (List OcrRecord) :=
  if recs.isEmpty then none
  else some (recs.map fun r => { r with confidence := round2 r.confidence })

/-- `ocr_image`, from the point where the framework has delivered its
results: returns the pair `(data_text, data_words)`. -/
def ocr_image (width height : ℕ) (results : List Candidate) :
    Option (List OcrRecord) × Option (List OcrRecord) :=
  let tables := outputHandler (width : ℚ) (height : ℚ) results
  (finalizeTable tables.1, finalizeTable tables.2)

/-- Spec-level reading of "maximal whitespace-delimited token": split the
string at every whitespace character and discard the empty chunks. Used only
to compare with `tokenize`, which embeds the source's regex scan. -/
def specTokens (s : List Char) : List (List Char) :=
  (s.splitOnP isSpace).filter fun t => !t.isEmpty

/-! ### The recognition request and the CLI -/

/-- `Vision.VNRequestTextRecognitionLevelAccurate` (the framework constant). -/
def VNRequestTextRecognitionLevelAccurate : ℕ := 0

/-- `Vision.VNRequestTextRecognitionLevelFast` (the framework constant). -/
def VNRequestTextRecognitionLevelFast : ℕ := 1

/-- The mutable configuration `ocr_image` sets on its
`VNRecognizeTextRequest`. -/
structure RecognitionRequest where
  recognitionLanguages : List String
  usesLanguageCorrection : Bool
  recognitionLevel : ℕ
deriving Repr, DecidableEq

/-- Python's `languages or ["en"]` where `languages` is `None` or a sequence:
both `None` and an empty sequence are falsy and yield the default. -/
def pyOrLangs : Option (List String) → List String
  | none => ["en"]
  | some [] => ["en"]
  | some (l :: ls) => l :: ls

/-- The three `request.set...` calls in `ocr_image`:
`setRecognitionLanguages_(languages or ["en"])`,
`setUsesLanguageCorrection_(language_correction)`,
`setRecognitionLevel_(1 if fast else 0)`. -/
def configureRequest (languages : Option (List String))
    (language_correction : Bool) (fast : Bool) : RecognitionRequest :=
  { recognitionLanguages := pyOrLangs languages
    usesLanguageCorrection := language_correction
    recognitionLevel := if fast then 1 else 0 }

/-- `output_data = data_words if words else data_text`. -/
def selectOutput (words : Bool) (data_text data_words : Option (List OcrRecord)) :
    Option (List OcrRecord) :=
  if words then data_words else data_text

/-- `"\n".join(output_data["text"].values)`. -/
def joinTexts (recs : List OcrRecord) : List Char :=
  List.intercalate ['\n'] (recs.map fun r => r.text)

/-- `pathlib.PurePath.name`: the component after the last `/`. -/
def pathName (p : List Char) : List Char :=
  (p.reverse.takeWhile fun c => c != '/').reverse

/-- The index of the last `.` in a name (`name.rfind(".")`), if any. -/
def lastDotIndex (name : List Char) : Option Nat :=
  match name.reverse.findIdx? (fun c => c == '.') with
  | none => none
  | some j => some (name.length - 1 - j)

/-- `pathlib.PurePath.suffix`: `name[i:]` for `i = name.rfind(".")` when
`0 < i < len(name) - 1`, else the empty string. -/
def pathSuffix (p : List Char) : List Char :=
  let name := pathName p
  match lastDotIndex name with
  | none => []
  | some i => if 0 < i ∧ i < name.length - 1 then name.drop i else []

/-- An unhandled Python exception escaping the `ocr` command. -/
inductive PyError where
  /-- `output_data["text"]` with `output_data = None`. -/
  | typeError : PyError
  /-- `output_data.to_csv(...)` with `output_data = None`. -/
  | attributeError : PyError
  /-- A failure raised inside the external framework call. -/
  | frameworkError : String → PyError
deriving Repr, DecidableEq

/-- The observable effect of the `ocr` command body after recognition. -/
inductive OutputAction where
  /-- `print("\n".join(output_data["text"].values))` to the console. -/
  | consolePrint : List Char → OutputAction
  /-- `f.write("\n".join(output_data["text"].values))` into the `.txt` file. -/
  | writeTxt : List Char → List Char → OutputAction
  /-- `output_data.to_csv(output)`: the record rows written to the `.csv`. -/
  | writeCsv : List Char → List OcrRecord → OutputAction
  /-- `print(message)` followed by `sys.exit(code)`. -/
  | exitError : String → ℕ → OutputAction
deriving Repr, DecidableEq

/-- The output half of the `ocr` command (`lines 185–197`): console print
when no `--output` is given, otherwise dispatch on the output path suffix,
with `sys.exit(1)` after a message when the suffix is unrecognized.
Indexing a `None` table raises. -/
def ocrCommandOutput (output_data : Option (List OcrRecord))
    (output : Option (List Char)) : Except PyError OutputAction :=
  match output with
  | none =>
    match output_data with
    | none => .error .typeError
    | some recs => .ok (.consolePrint (joinTexts recs))
  | some p =>
    if pathSuffix p = ".txt".toList then
      match output_data with
      | none => .error .typeError
      | some recs => .ok (.writeTxt p (joinTexts recs))
    else if pathSuffix p = ".csv".toList then
      match output_data with
      | none => .error .attributeError
      | some recs => .ok (.writeCsv p recs)
    else
      .ok (.exitError "No file suffix, could not guess file format" 1)

/-- `click.Path(dir_okay=False, resolve_path=True)` on the `file` argument
leaves the `exists` parameter at its default `False`: click performs no
existence check on the input path before the command body runs. -/
def clickFileMustExist : Bool := false

/-- The whole `ocr` command: the flags are forwarded to `ocr_image`
(`languages=languages, language_correction=not no_correct, fast=fast`),
the external recognition call is an oracle that may fail, the tables are
built from its results, and the selected table is rendered.  No exception
handler appears anywhere in the command. -/
def ocrCommand
    (framework : RecognitionRequest → List Char →
      Except PyError (ℕ × ℕ × List Candidate))
    (file : List Char) (output : Option (List Char))
    (fast words no_correct : Bool) (languages : List String) :
    Except PyError OutputAction :=
  let req := configureRequest (some languages) (!no_correct) fast
  match framework req file with
  | .error e => .error e
  | .ok (w, h, results) =>
    let tables := ocr_image w h results
    ocrCommandOutput (selectOutput words tables.1 tables.2) output

/-! ### Concrete fixtures used by witnesses -/

/-- A concrete normalized box, used by witnesses. -/
def sampleBox : CGRect := ⟨1/10, 2/10, 3/10, 4/10⟩

/-- A concrete candidate whose box for every range is `sampleBox`. -/
def sampleCandidate : Candidate :=
  { string := "ab cd".toList
    confidence := 1/2
    boxForRange := fun _ _ => sampleBox }

/-- A normalized rectangle lies within the unit square. -/
def inUnitSquare (r : CGRect) : Prop :=
  0 ≤ r.x ∧ 0 ≤ r.y ∧ 0 ≤ r.w ∧ 0 ≤ r.h ∧ r.x + r.w ≤ 1 ∧ r.y + r.h ≤ 1

/-- Candidates carrying the same string, confidence and bounding rectangles. -/
def CandEquiv (c₁ c₂ : Candidate) : Prop :=
  c₁.string = c₂.string ∧ c₁.confidence = c₂.confidence ∧
    ∀ st len, c₁.boxForRange st len = c₂.boxForRange st len

instance (r : CGRect) : Decidable (inUnitSquare r) := by
  unfold inUnitSquare; infer_instance

/-- The line-level table produced for `sampleCandidate` on a 10 × 20 image. -/
def sampleLineRecord : OcrRecord :=
  ⟨1, 8, 3, 8, 1/2, "ab cd".toList⟩

/-! ### Helper lemmas -/

theorem specTokens_nil : specTokens [] = [] := by
  simp [specTokens, List.splitOnP_nil]

theorem specTokens_cons_space (c : Char) (cs : List Char) (h : isSpace c = true) :
    specTokens (c :: cs) = specTokens cs := by
  simp [specTokens, List.splitOnP_cons, h]

theorem specTokens_cons_nonspace (c : Char) (cs : List Char) (h : isSpace c = false) :
    specTokens (c :: cs) =
      (c :: cs.takeWhile fun d => !isSpace d) ::
        specTokens (cs.dropWhile fun d => !isSpace d) := by
  have hsplit : c :: cs =
      ((c :: cs.takeWhile fun d => !isSpace d) ++ cs.dropWhile fun d => !isSpace d) := by
    simp [List.takeWhile_append_dropWhile]
  have htk : ∀ x ∈ c :: cs.takeWhile fun d => !isSpace d, ¬ isSpace x = true := by
    intro x hx
    rcases List.mem_cons.mp hx with hx | hx
    · subst hx; simp [h]
    · have := List.mem_takeWhile_imp hx
      simpa using this
  rcases hdr : cs.dropWhile (fun d => !isSpace d) with _ | ⟨d, ds⟩
  · rw [hsplit, hdr, specTokens_nil]
    simp only [List.append_nil]
    rw [specTokens, List.splitOnP_eq_single _ _ htk]
    simp
  · have hd : isSpace d = true := by
      have h0 : 0 < (cs.dropWhile fun d => !isSpace d).length := by
        rw [hdr]; simp
      have hnot := List.dropWhile_get_zero_not (p := fun d => !isSpace d) cs h0
      have hget : (cs.dropWhile fun d => !isSpace d).get ⟨0, h0⟩ = d := by
        simp [hdr]
      rw [hget] at hnot
      simpa using hnot
    rw [hsplit, hdr, specTokens_cons_space d ds hd]
    rw [specTokens, List.splitOnP_first _ _ htk d (by simpa using hd)]
    rw [List.filter_cons]
    simp [specTokens]

/-- The texts produced by the regex scan are exactly the whitespace-delimited
tokens of the string, in order. -/
theorem tokenize_texts (s : List Char) (i : Nat) :
    (tokenize s i).map (fun t => t.2.2) = specTokens s := by
  induction s, i using tokenize.induct with
  | case1 i => simp [tokenize, specTokens_nil]
  | case2 c cs i hsp ih =>
    rw [tokenize, if_pos hsp, ih, specTokens_cons_space c cs hsp]
  | case3 c cs i hsp tok ih =>
    rw [tokenize, if_neg hsp]
    simp only [List.map_cons]
    rw [ih, specTokens_cons_nonspace c cs (by simpa using hsp)]

theorem handler_foldl (w h : ℚ) (results : List Candidate)
    (a b : List OcrRecord) :
    results.foldl (handlerStep w h) (a, b) =
      (a ++ results.map (lineRecord w h),
       b ++ (results.map (wordRecords w h)).flatten) := by
  induction results generalizing a b with
  | nil => simp
  | cons c cs ih =>
    simp only [List.foldl_cons, handlerStep, ih, List.map_cons, List.flatten_cons]
    simp

/-- `output_handler` collects one line record per result and the word
records of every result, in order. -/
theorem outputHandler_eq (w h : ℚ) (results : List Candidate) :
    outputHandler w h results =
      (results.map (lineRecord w h),
       (results.map (wordRecords w h)).flatten) := by
  simpa using handler_foldl w h results [] []


theorem mkRecord_confidence (w h : ℚ) (norm : CGRect) (conf : ℚ) (t : List Char) :
    (mkRecord w h norm conf t).confidence = conf := rfl

theorem mem_ocr_image (width height : ℕ) (results : List Candidate)
    (table : List OcrRecord) (r : OcrRecord)
    (htab : (ocr_image width height results).1 = some table ∨
      (ocr_image width height results).2 = some table)
    (hr : r ∈ table) :
    ∃ c ∈ results, ∃ st len t, r =
      { mkRecord (width : ℚ) (height : ℚ) (c.boxForRange st len) c.confidence t
          with confidence := round2 c.confidence } := by
  simp only [ocr_image, outputHandler_eq, finalizeTable] at htab
  rcases htab with htab | htab
  · split at htab
    · exact absurd htab (by simp)
    · have htab' := Option.some.inj htab
      subst htab'
      rcases List.mem_map.mp hr with ⟨r0, hr0, hround⟩
      rcases List.mem_map.mp hr0 with ⟨c, hc, hline⟩
      refine ⟨c, hc, 0, c.string.length, c.string, ?_⟩
      rw [← hround, ← hline]
      rw [lineRecord, mkRecord_confidence]
  · split at htab
    · exact absurd htab (by simp)
    · have htab' := Option.some.inj htab
      subst htab'
      rcases List.mem_map.mp hr with ⟨r0, hr0, hround⟩
      rcases List.mem_flatten.mp hr0 with ⟨l, hl, hr0l⟩
      rcases List.mem_map.mp hl with ⟨c, hc, hwords⟩
      rw [← hwords] at hr0l
      rcases List.mem_map.mp hr0l with ⟨tk, _htk, hrec⟩
      refine ⟨c, hc, tk.1, tk.2.1, tk.2.2, ?_⟩
      rw [← hround, ← hrec, mkRecord_confidence]

theorem roundHalfEven_nonneg (q : ℚ) (hq : 0 ≤ q) : 0 ≤ roundHalfEven q := by
  have hf : (0 : ℤ) ≤ ⌊q⌋ := Int.le_floor.mpr (by exact_mod_cast hq)
  unfold roundHalfEven
  dsimp only
  split
  · exact hf
  · split
    · omega
    · split
      · exact hf
      · omega

theorem roundHalfEven_le (q : ℚ) (n : ℤ) (hq : q ≤ n) : roundHalfEven q ≤ n := by
  have hfn : ⌊q⌋ ≤ n := Int.floor_le_floor hq |>.trans_eq (Int.floor_intCast n)
  have hceil : ⌈q⌉ ≤ n := Int.ceil_le.mpr hq
  unfold roundHalfEven
  dsimp only
  have hsucc : ¬ (q - ⌊q⌋ < 1 / 2) → ⌊q⌋ + 1 ≤ n := by
    intro hfrac
    have hlt : (⌊q⌋ : ℚ) < q := by
      have : (1 : ℚ) / 2 ≤ q - ⌊q⌋ := le_of_not_lt hfrac
      linarith
    have : ⌊q⌋ < ⌈q⌉ := Int.lt_ceil.mpr hlt
    omega
  split
  · exact hfn
  · split
    · exact hsucc (by linarith [show ¬ (q - ⌊q⌋ < 1/2) from by assumption])
    · split
      · exact hfn
      · have hfrac : ¬ (q - ⌊q⌋ < 1 / 2) := by assumption
        exact hsucc hfrac

theorem round2_nonneg (q : ℚ) (hq : 0 ≤ q) : 0 ≤ round2 q := by
  unfold round2
  have := roundHalfEven_nonneg (q * 100) (by positivity)
  positivity

theorem round2_le_one (q : ℚ) (hq : q ≤ 1) : round2 q ≤ 1 := by
  unfold round2
  have h : roundHalfEven (q * 100) ≤ (100 : ℤ) :=
    roundHalfEven_le (q * 100) 100 (by push_cast; linarith)
  have h' : (roundHalfEven (q * 100) : ℚ) ≤ 100 := by exact_mod_cast h
  linarith

/-! ### Claim theorems -/

theorem mkRecord_bounds (W H : ℕ) (norm : CGRect) (conf : ℚ) (t : List Char)
    (hbox : inUnitSquare norm) :
    0 ≤ (mkRecord W H norm conf t).left ∧ 0 ≤ (mkRecord W H norm conf t).top ∧
    (mkRecord W H norm conf t).left + (mkRecord W H norm conf t).width ≤ (W : ℚ) ∧
    (mkRecord W H norm conf t).top + (mkRecord W H norm conf t).height ≤ (H : ℚ) := by
  obtain ⟨hx, hy, hw, hh, hxw, hyh⟩ := hbox
  have hW : (0 : ℚ) ≤ W := Nat.cast_nonneg W
  have hH : (0 : ℚ) ≤ H := Nat.cast_nonneg H
  simp only [mkRecord, VNImageRectForNormalizedRect]
  refine ⟨mul_nonneg hx hW, ?_, ?_, ?_⟩
  · nlinarith
  · nlinarith
  · nlinarith

/-- C1: every record emitted by `ocr_image` whose source normalized box lies
within the unit square has pixel-space coordinates with a top-left origin —
`top` is the image height minus the framework's bottom-left `y` (scaled)
minus the box height (scaled) — and the coordinates are non-negative and
within the image bounds. -/
theorem ocr_records_in_bounds (width height : ℕ) (results : List Candidate)
    (hbox : ∀ c ∈ results, ∀ st len, inUnitSquare (c.boxForRange st len)) :
    ∀ table r, ((ocr_image width height results).1 = some table ∨
        (ocr_image width height results).2 = some table) → r ∈ table →
      (∃ c ∈ results, ∃ st len,
          r.left = (c.boxForRange st len).x * width ∧
          r.top = (height : ℚ) - (c.boxForRange st len).y * height -
            (c.boxForRange st len).h * height ∧
          r.width = (c.boxForRange st len).w * width ∧
          r.height = (c.boxForRange st len).h * height) ∧
      0 ≤ r.left ∧ 0 ≤ r.top ∧
      r.left + r.width ≤ (width : ℚ) ∧ r.top + r.height ≤ (height : ℚ) := by
  intro table r htab hr
  obtain ⟨c, hc, st, len, t, hrec⟩ :=
    mem_ocr_image width height results table r htab hr
  have hl : r.left =
      (mkRecord (width : ℚ) (height : ℚ) (c.boxForRange st len) c.confidence t).left := by
    rw [hrec]
  have ht : r.top =
      (mkRecord (width : ℚ) (height : ℚ) (c.boxForRange st len) c.confidence t).top := by
    rw [hrec]
  have hw : r.width =
      (mkRecord (width : ℚ) (height : ℚ) (c.boxForRange st len) c.confidence t).width := by
    rw [hrec]
  have hh : r.height =
      (mkRecord (width : ℚ) (height : ℚ) (c.boxForRange st len) c.confidence t).height := by
    rw [hrec]
  have hbnd := mkRecord_bounds width height (c.boxForRange st len) c.confidence t
    (hbox c hc st len)
  refine ⟨⟨c, hc, st, len, ?_, ?_, ?_, ?_⟩, ?_, ?_, ?_, ?_⟩
  · rw [hl]; simp [mkRecord, VNImageRectForNormalizedRect]
  · rw [ht]; simp [mkRecord, VNImageRectForNormalizedRect]
  · rw [hw]; simp [mkRecord, VNImageRectForNormalizedRect]
  · rw [hh]; simp [mkRecord, VNImageRectForNormalizedRect]
  · rw [hl]; exact hbnd.1
  · rw [ht]; exact hbnd.2.1
  · rw [hl, hw]; exact hbnd.2.2.1
  · rw [ht, hh]; exact hbnd.2.2.2

theorem ocr_records_in_bounds_witness :
    (∃ c ∈ [sampleCandidate], ∃ st len,
        sampleLineRecord.left = (c.boxForRange st len).x * (10 : ℕ) ∧
        sampleLineRecord.top = ((20 : ℕ) : ℚ) - (c.boxForRange st len).y * (20 : ℕ) -
          (c.boxForRange st len).h * (20 : ℕ) ∧
        sampleLineRecord.width = (c.boxForRange st len).w * (10 : ℕ) ∧
        sampleLineRecord.height = (c.boxForRange st len).h * (20 : ℕ)) ∧
    0 ≤ sampleLineRecord.left ∧ 0 ≤ sampleLineRecord.top ∧
    sampleLineRecord.left + sampleLineRecord.width ≤ ((10 : ℕ) : ℚ) ∧
    sampleLineRecord.top + sampleLineRecord.height ≤ ((20 : ℕ) : ℚ) := by
  have htab : (ocr_image 10 20 [sampleCandidate]).1 = some [sampleLineRecord] := by
    simp only [ocr_image, outputHandler_eq, finalizeTable, lineRecord, mkRecord,
      VNImageRectForNormalizedRect, sampleCandidate, sampleBox, sampleLineRecord,
      round2, roundHalfEven, List.map_cons, List.map_nil, List.isEmpty_cons]
    norm_num
  exact ocr_records_in_bounds 10 20 [sampleCandidate]
    (by
      intro c hc st len
      rcases List.mem_singleton.mp hc with rfl
      exact (by norm_num [inUnitSquare, sampleBox] : inUnitSquare sampleBox))
    [sampleLineRecord] sampleLineRecord (Or.inl htab)
    (List.mem_singleton.mpr rfl)


/-- C2: `output_handler` appends exactly one line-level record per
recognized line (carrying the whole string and the candidate confidence)
and, in left-to-right order, one word-level record per maximal
whitespace-delimited token of the string, each carrying that token as its
text and the line candidate's confidence. -/
theorem one_line_record_and_word_records (w h : ℚ) (results : List Candidate) :
    ((outputHandler w h results).1 = results.map (lineRecord w h)) ∧
    ((outputHandler w h results).2 = (results.map (wordRecords w h)).flatten) ∧
    (∀ c : Candidate, (lineRecord w h c).text = c.string ∧
      (lineRecord w h c).confidence = c.confidence) ∧
    (∀ c : Candidate, (wordRecords w h c).map (fun r => r.text) = specTokens c.string) ∧
    (∀ c : Candidate, ∀ r ∈ wordRecords w h c, r.confidence = c.confidence) := by
  have he := outputHandler_eq w h results
  refine ⟨by rw [he], by rw [he], fun c => ⟨rfl, rfl⟩, fun c => ?_, fun c r hr => ?_⟩
  · rw [wordRecords, List.map_map]
    have : ((fun r : OcrRecord => r.text) ∘ fun t : Nat × Nat × List Char =>
        mkRecord w h (c.boxForRange t.1 t.2.1) c.confidence t.2.2) =
        fun t : Nat × Nat × List Char => t.2.2 := rfl
    rw [this, tokenize_texts]
  · rcases List.mem_map.mp hr with ⟨t, _ht, hrec⟩
    rw [← hrec]
    rfl

/-- C5: every record in either table returned by `ocr_image` carries the
source candidate's confidence rounded to two decimal places, and (given the
framework guarantee that confidences lie in `[0, 1]`) the stored value lies
in `[0, 1]`. -/
theorem confidence_rounded_two_decimals (width height : ℕ) (results : List Candidate)
    (hconf : ∀ c ∈ results, 0 ≤ c.confidence ∧ c.confidence ≤ 1) :
    ∀ table r, ((ocr_image width height results).1 = some table ∨
        (ocr_image width height results).2 = some table) → r ∈ table →
      (∃ c ∈ results, r.confidence = round2 c.confidence) ∧
      0 ≤ r.confidence ∧ r.confidence ≤ 1 := by
  intro table r htab hr
  obtain ⟨c, hc, st, len, t, hrec⟩ :=
    mem_ocr_image width height results table r htab hr
  have hcr : r.confidence = round2 c.confidence := by rw [hrec]
  refine ⟨⟨c, hc, hcr⟩, ?_, ?_⟩
  · rw [hcr]; exact round2_nonneg _ (hconf c hc).1
  · rw [hcr]; exact round2_le_one _ (hconf c hc).2

theorem confidence_rounded_two_decimals_witness :
    (∃ c ∈ [sampleCandidate], sampleLineRecord.confidence = round2 c.confidence) ∧
    0 ≤ sampleLineRecord.confidence ∧ sampleLineRecord.confidence ≤ 1 := by
  have htab : (ocr_image 10 20 [sampleCandidate]).1 = some [sampleLineRecord] := by
    simp only [ocr_image, outputHandler_eq, finalizeTable, lineRecord, mkRecord,
      VNImageRectForNormalizedRect, sampleCandidate, sampleBox, sampleLineRecord,
      round2, roundHalfEven, List.map_cons, List.map_nil, List.isEmpty_cons]
    norm_num
  exact confidence_rounded_two_decimals 10 20 [sampleCandidate]
    (by
      intro c hc
      rcases List.mem_singleton.mp hc with rfl
      exact ⟨by norm_num [sampleCandidate], by norm_num [sampleCandidate]⟩)
    [sampleLineRecord] sampleLineRecord (Or.inl htab)
    (List.mem_singleton.mpr rfl)

/-- C10: with no languages supplied (`None` or an empty sequence) the
request is configured with exactly `["en"]`; a non-empty language list is
passed through unchanged. -/
theorem default_language_en (correction fast : Bool) :
    ((configureRequest none correction fast).recognitionLanguages = ["en"]) ∧
    ((configureRequest (some []) correction fast).recognitionLanguages = ["en"]) ∧
    (∀ l ls, (configureRequest (some (l :: ls)) correction fast).recognitionLanguages
      = l :: ls) :=
  ⟨rfl, rfl, fun _ _ => rfl⟩


/-- C3: with no `--output` the newline-joined text fields are printed to the
console; a `.txt` output path receives exactly the newline-joined text
fields; a `.csv` output path receives the row-oriented table of the
selected records. -/
theorem output_sink_dispatch (recs : List OcrRecord) (p : List Char) :
    (ocrCommandOutput (some recs) none = .ok (.consolePrint (joinTexts recs))) ∧
    (pathSuffix p = ".txt".toList →
      ocrCommandOutput (some recs) (some p) = .ok (.writeTxt p (joinTexts recs))) ∧
    (pathSuffix p = ".csv".toList →
      ocrCommandOutput (some recs) (some p) = .ok (.writeCsv p recs)) := by
  refine ⟨rfl, ?_, ?_⟩
  · intro hsfx
    simp [ocrCommandOutput, hsfx]
  · intro hsfx
    have hne : pathSuffix p ≠ ".txt".toList := by
      rw [hsfx]; decide
    simp [ocrCommandOutput, hsfx, hne]

theorem output_sink_dispatch_witness :
    (pathSuffix "/tmp/out.txt".toList = ".txt".toList ∧
      ocrCommandOutput (some [sampleLineRecord]) (some "/tmp/out.txt".toList) =
        .ok (.writeTxt "/tmp/out.txt".toList (joinTexts [sampleLineRecord]))) ∧
    (pathSuffix "/tmp/out.csv".toList = ".csv".toList ∧
      ocrCommandOutput (some [sampleLineRecord]) (some "/tmp/out.csv".toList) =
        .ok (.writeCsv "/tmp/out.csv".toList [sampleLineRecord])) ∧
    (ocrCommandOutput (some [sampleLineRecord]) none =
      .ok (.consolePrint (joinTexts [sampleLineRecord]))) := by
  have h1 : pathSuffix "/tmp/out.txt".toList = ".txt".toList := by decide
  have h2 : pathSuffix "/tmp/out.csv".toList = ".csv".toList := by decide
  exact ⟨⟨h1, (output_sink_dispatch [sampleLineRecord] _).2.1 h1⟩,
    ⟨h2, (output_sink_dispatch [sampleLineRecord] _).2.2 h2⟩,
    (output_sink_dispatch [sampleLineRecord] []).1⟩

/-- C4: an `--output` path whose suffix is neither `.txt` nor `.csv` makes
the command print a one-line message (it contains no newline) and exit with
the non-zero code 1, and no file-writing action is produced. -/
theorem unsupported_suffix_exit (output_data : Option (List OcrRecord))
    (p : List Char)
    (h1 : pathSuffix p ≠ ".txt".toList) (h2 : pathSuffix p ≠ ".csv".toList) :
    (ocrCommandOutput output_data (some p) =
      .ok (.exitError "No file suffix, could not guess file format" 1)) ∧
    (1 : ℕ) ≠ 0 ∧
    ('\n' ∉ "No file suffix, could not guess file format".toList) ∧
    (∀ q c, ocrCommandOutput output_data (some p) ≠ .ok (.writeTxt q c)) ∧
    (∀ q rows, ocrCommandOutput output_data (some p) ≠ .ok (.writeCsv q rows)) := by
  have e1 : ".txt".toList = ['.', 't', 'x', 't'] := rfl
  have e2 : ".csv".toList = ['.', 'c', 's', 'v'] := rfl
  rw [e1] at h1
  rw [e2] at h2
  have hmain : ocrCommandOutput output_data (some p) =
      .ok (.exitError "No file suffix, could not guess file format" 1) := by
    simp [ocrCommandOutput, h1, h2]
  refine ⟨hmain, by decide, by decide, ?_, ?_⟩
  · intro q c
    rw [hmain]
    simp
  · intro q rows
    rw [hmain]
    simp

theorem unsupported_suffix_exit_witness :
    (pathSuffix "/tmp/out.bin".toList ≠ ".txt".toList ∧
      pathSuffix "/tmp/out.bin".toList ≠ ".csv".toList) ∧
    (ocrCommandOutput (some [sampleLineRecord]) (some "/tmp/out.bin".toList) =
      .ok (.exitError "No file suffix, could not guess file format" 1)) ∧
    (1 : ℕ) ≠ 0 := by
  have h1 : pathSuffix "/tmp/out.bin".toList ≠ ".txt".toList := by decide
  have h2 : pathSuffix "/tmp/out.bin".toList ≠ ".csv".toList := by decide
  have h := unsupported_suffix_exit (some [sampleLineRecord]) "/tmp/out.bin".toList h1 h2
  exact ⟨⟨h1, h2⟩, h.1, h.2.1⟩


theorem map_eq_of_forall₂ {α β : Type} (R : α → α → Prop) (f g : α → β)
    (l₁ l₂ : List α) (h : List.Forall₂ R l₁ l₂)
    (hfg : ∀ a b, R a b → f a = g b) : l₁.map f = l₂.map g := by
  induction h with
  | nil => rfl
  | cons hab _ ih => simp only [List.map_cons, hfg _ _ hab, ih]

theorem lineRecord_congr (w h : ℚ) (c₁ c₂ : Candidate) (hc : CandEquiv c₁ c₂) :
    lineRecord w h c₁ = lineRecord w h c₂ := by
  obtain ⟨hs, hcf, hb⟩ := hc
  rw [lineRecord, lineRecord, hs, hcf, hb]

theorem wordRecords_congr (w h : ℚ) (c₁ c₂ : Candidate) (hc : CandEquiv c₁ c₂) :
    wordRecords w h c₁ = wordRecords w h c₂ := by
  obtain ⟨hs, hcf, hb⟩ := hc
  rw [wordRecords, wordRecords, hs]
  apply List.map_congr_left
  intro t _ht
  rw [hcf, hb]

/-- C6: the CLI flags map one-to-one onto the recognition request and the
output selection: `--fast` picks the fast recognition level (its absence the
accurate one), `--no-correct` disables language correction, the repeated
`--lang` values are passed as the recognition languages, and `--words`
selects the word-level table while its absence selects the line-level one;
the `ocr` body forwards exactly these to `ocr_image` and renders the
selected table. -/
theorem cli_flag_mapping (fast words no_correct : Bool) (languages : List String)
    (output : Option (List Char)) :
    ((configureRequest (some languages) (!no_correct) fast).recognitionLevel =
      if fast then VNRequestTextRecognitionLevelFast
      else VNRequestTextRecognitionLevelAccurate) ∧
    ((configureRequest (some languages) (!no_correct) fast).usesLanguageCorrection
      = !no_correct) ∧
    (languages ≠ [] →
      (configureRequest (some languages) (!no_correct) fast).recognitionLanguages
        = languages) ∧
    (∀ dt dw, selectOutput true dt dw = dw ∧ selectOutput false dt dw = dt) ∧
    (∀ framework (file : List Char) (w h : ℕ) (rs : List Candidate),
      framework (configureRequest (some languages) (!no_correct) fast) file
        = .ok (w, h, rs) →
      ocrCommand framework file output fast words no_correct languages =
        ocrCommandOutput
          (selectOutput words (ocr_image w h rs).1 (ocr_image w h rs).2) output) := by
  refine ⟨by cases fast <;> rfl, rfl, ?_, fun dt dw => ⟨rfl, rfl⟩, ?_⟩
  · intro hne
    cases languages with
    | nil => exact absurd rfl hne
    | cons l ls => rfl
  · intro framework file w h rs hfw
    simp only [ocrCommand, hfw]

theorem cli_flag_mapping_witness :
    ((configureRequest (some ["de"]) (!true) true).recognitionLevel =
      VNRequestTextRecognitionLevelFast) ∧
    ((configureRequest (some ["de"]) (!true) true).usesLanguageCorrection = false) ∧
    ((configureRequest (some ["de"]) (!true) true).recognitionLanguages = ["de"]) ∧
    (selectOutput false (some [sampleLineRecord]) none = some [sampleLineRecord]) ∧
    (ocrCommand (fun _ _ => .ok (10, 20, [sampleCandidate])) "/tmp/in.jpg".toList
        none true false true ["de"] =
      ocrCommandOutput
        (selectOutput false (ocr_image 10 20 [sampleCandidate]).1
          (ocr_image 10 20 [sampleCandidate]).2) none) := by
  have h := cli_flag_mapping true false true ["de"] none
  exact ⟨by simpa using h.1, h.2.1, h.2.2.1 (by simp),
    (h.2.2.2.1 (some [sampleLineRecord]) none).2,
    h.2.2.2.2 (fun _ _ => .ok (10, 20, [sampleCandidate])) "/tmp/in.jpg".toList
      10 20 [sampleCandidate] rfl⟩

/-- C7: the formatting step is deterministic — two framework responses with
the same strings, confidences and bounding rectangles, on the same image
dimensions, produce identical tables and identical text projections. -/
theorem formatting_deterministic (w₁ h₁ w₂ h₂ : ℕ) (rs₁ rs₂ : List Candidate)
    (hw : w₁ = w₂) (hh : h₁ = h₂) (hrs : List.Forall₂ CandEquiv rs₁ rs₂) :
    ocr_image w₁ h₁ rs₁ = ocr_image w₂ h₂ rs₂ ∧
    (∀ words, Option.map joinTexts
        (selectOutput words (ocr_image w₁ h₁ rs₁).1 (ocr_image w₁ h₁ rs₁).2) =
      Option.map joinTexts
        (selectOutput words (ocr_image w₂ h₂ rs₂).1 (ocr_image w₂ h₂ rs₂).2)) := by
  subst hw
  subst hh
  have heq : ocr_image w₁ h₁ rs₁ = ocr_image w₁ h₁ rs₂ := by
    unfold ocr_image
    rw [outputHandler_eq, outputHandler_eq]
    have hline : rs₁.map (lineRecord (w₁ : ℚ) (h₁ : ℚ)) =
        rs₂.map (lineRecord (w₁ : ℚ) (h₁ : ℚ)) :=
      map_eq_of_forall₂ CandEquiv _ _ rs₁ rs₂ hrs
        (fun a b hab => lineRecord_congr _ _ a b hab)
    have hword : rs₁.map (wordRecords (w₁ : ℚ) (h₁ : ℚ)) =
        rs₂.map (wordRecords (w₁ : ℚ) (h₁ : ℚ)) :=
      map_eq_of_forall₂ CandEquiv _ _ rs₁ rs₂ hrs
        (fun a b hab => wordRecords_congr _ _ a b hab)
    rw [hline, hword]
  exact ⟨heq, fun words => by rw [heq]⟩

theorem formatting_deterministic_witness :
    ocr_image 10 20 [sampleCandidate] = ocr_image 10 20 [sampleCandidate] ∧
    (∀ words, Option.map joinTexts
        (selectOutput words (ocr_image 10 20 [sampleCandidate]).1
          (ocr_image 10 20 [sampleCandidate]).2) =
      Option.map joinTexts
        (selectOutput words (ocr_image 10 20 [sampleCandidate]).1
          (ocr_image 10 20 [sampleCandidate]).2)) :=
  formatting_deterministic 10 20 10 20 [sampleCandidate] [sampleCandidate]
    rfl rfl (List.Forall₂.cons ⟨rfl, rfl, fun _ _ => rfl⟩ List.Forall₂.nil)

/-- C8: the CLI performs no existence check on the input path, and a failure
raised inside the framework call propagates out of the `ocr` command
unchanged — it is not converted into a handled one-line-message exit. -/
theorem missing_file_unhandled
    (framework : RecognitionRequest → List Char →
      Except PyError (ℕ × ℕ × List Candidate))
    (file : List Char) (output : Option (List Char))
    (fast words no_correct : Bool) (languages : List String) (e : PyError)
    (hfail : ∀ req, framework req file = .error e) :
    clickFileMustExist = false ∧
    (ocrCommand framework file output fast words no_correct languages = .error e) ∧
    (∀ msg code, ocrCommand framework file output fast words no_correct languages ≠
      .ok (.exitError msg code)) := by
  have hcmd : ocrCommand framework file output fast words no_correct languages
      = .error e := by
    simp only [ocrCommand, hfail]
  exact ⟨rfl, hcmd, fun msg code => by rw [hcmd]; simp⟩

theorem missing_file_unhandled_witness :
    clickFileMustExist = false ∧
    (ocrCommand (fun _ _ => .error (.frameworkError "no such file"))
        "/tmp/missing.jpg".toList none false false false [] =
      .error (.frameworkError "no such file")) := by
  have h := missing_file_unhandled
    (fun _ _ => .error (.frameworkError "no such file"))
    "/tmp/missing.jpg".toList none false false false []
    (.frameworkError "no such file") (fun _ => rfl)
  exact ⟨h.1, h.2.1⟩

/-- C9: with no recognized text regions `ocr_image` returns `(None, None)`
rather than empty tables, and the `ocr` command then raises an unhandled
exception when it indexes the `None` result (console and `.txt` paths raise
a `TypeError` at the subscript, the `.csv` path an `AttributeError` at
`to_csv`). -/
theorem empty_results_crash (width height : ℕ) :
    (ocr_image width height [] = (none, none)) ∧
    (∀ words, ocrCommandOutput (selectOutput words none none) none
      = .error .typeError) ∧
    (∀ p, pathSuffix p = ".txt".toList →
      ocrCommandOutput none (some p) = .error .typeError) ∧
    (∀ p, pathSuffix p = ".csv".toList →
      ocrCommandOutput none (some p) = .error .attributeError) ∧
    (∀ framework (file : List Char) (fast words no_correct : Bool)
        (languages : List String),
      framework (configureRequest (some languages) (!no_correct) fast) file
        = .ok (width, height, []) →
      ocrCommand framework file none fast words no_correct languages
        = .error .typeError) := by
  refine ⟨rfl, fun words => by cases words <;> rfl, ?_, ?_, ?_⟩
  · intro p hsfx
    simp [ocrCommandOutput, hsfx]
  · intro p hsfx
    have hne : pathSuffix p ≠ ".txt".toList := by rw [hsfx]; decide
    simp [ocrCommandOutput, hsfx, hne]
  · intro framework file fast words no_correct languages hfw
    simp only [ocrCommand, hfw]
    cases words <;> rfl

theorem empty_results_crash_witness :
    (ocr_image 10 20 [] = (none, none)) ∧
    (ocrCommandOutput (selectOutput true none none) none = .error .typeError) ∧
    (pathSuffix "/tmp/o.txt".toList = ".txt".toList ∧
      ocrCommandOutput none (some "/tmp/o.txt".toList) = .error .typeError) ∧
    (pathSuffix "/tmp/o.csv".toList = ".csv".toList ∧
      ocrCommandOutput none (some "/tmp/o.csv".toList) = .error .attributeError) ∧
    (ocrCommand (fun _ _ => .ok (10, 20, [])) "/tmp/in.jpg".toList none
      false true false [] = .error .typeError) := by
  have h := empty_results_crash 10 20
  have h1 : pathSuffix "/tmp/o.txt".toList = ".txt".toList := by decide
  have h2 : pathSuffix "/tmp/o.csv".toList = ".csv".toList := by decide
  exact ⟨h.1, h.2.1 true, ⟨h1, h.2.2.1 _ h1⟩, ⟨h2, h.2.2.2.1 _ h2⟩,
    h.2.2.2.2 (fun _ _ => .ok (10, 20, [])) "/tmp/in.jpg".toList
      false true false [] rfl⟩

end IVision
